import Mathlib

/-!
Verification of the bookscraper capture/assembly core.

The repository automates screenshotting a paginated on-screen document and
assembling the shots into a PDF.  This file gives a shallow embedding of the
parts of the three Python sources that the specification talks about:

* `capture_region_by_keys` (book_capture.py, lines 37-65) and the region
  construction inlined in the GUI's `start_capture` (BookCapGUI.py, lines
  305-309), here `guiRegion`;
* the GUI capture worker (BookCapGUI.py, lines 313-453), here `loopGo` and
  `workerRun`, driven by an explicit trace of per-iteration outcomes;
* the page filename format `page_%04d.png`;
* the standalone assembler `screenshots_to_pdf.py` (`get_times`, `is_image`,
  the sort in `main`, and `os.path.join(folder, args.out)`).

Strings are embedded as lists of byte values (`List Nat`); timestamps as
naturals (only their ordering matters); Python `sorted` (a stable sort) is
embedded as `List.insertionSort`, which is the stable sort for a total
transitive relation.
-/

namespace BookCap

/-- Lowercase one ASCII byte, as Python `str.lower` acts on ASCII. -/
def lowerByte (c : Nat) : Nat := if 65 ≤ c ∧ c ≤ 90 then c + 32 else c

/-- ASCII lowercasing of a byte string (`str.lower`). -/
def lowerBytes (s : List Nat) : List Nat := s.map lowerByte

/-- `os.path.basename`: the part of a POSIX path after the last slash
(byte 47). -/
def basenameBytes (p : List Nat) : List Nat :=
  p.foldl (fun acc c => if c = 47 then [] else acc ++ [c]) []

/-- Non-strict lexicographic order on byte strings, matching Python string
comparison (by code point). -/
def lexLeB : List Nat → List Nat → Bool
  | [], _ => true
  | _ :: _, [] => false
  | a :: as, b :: bs => if a < b then true else if b < a then false else lexLeB as bs

/-- Strict lexicographic order on byte strings. -/
def lexLtB : List Nat → List Nat → Bool
  | [], [] => false
  | [], _ :: _ => true
  | _ :: _, [] => false
  | a :: as, b :: bs => if a < b then true else if b < a then false else lexLtB as bs

/-- `os.path.splitext(...)[1]` of a basename: the suffix starting at the last
dot (byte 46), provided some earlier character of the basename is not a dot
(Python treats leading dots as part of the root, not an extension). -/
def extOfBasename (b : List Nat) : List Nat :=
  match (b.reverse).findIdx? (fun c => c = 46) with
  | none => []
  | some k =>
      if ((b.reverse).drop (k + 1)).any (fun c => c ≠ 46) then
        ((b.reverse).take (k + 1)).reverse
      else []

/-- The allowed image extensions of both the GUI and the assembler:
".png", ".jpg", ".jpeg", ".tif", ".tiff" (as byte strings). -/
def allowedExts : List (List Nat) :=
  [[46, 112, 110, 103], [46, 106, 112, 103], [46, 106, 112, 101, 103],
   [46, 116, 105, 102], [46, 116, 105, 102, 102]]

/-- `is_image` (screenshots_to_pdf.py, lines 19-20):
`os.path.splitext(path)[1].lower() in ALLOWED_EXTS`. -/
def is_image (p : List Nat) : Bool :=
  allowedExts.contains (lowerBytes (extOfBasename (basenameBytes p)))

/-- `os.path.join(a, b)` for POSIX paths, two arguments: an absolute second
component replaces the first; otherwise a separator is added unless the first
component is empty or already ends in a slash. -/
def joinPath (a b : List Nat) : List Nat :=
  if b.head? = some 47 then b
  else if a = [] ∨ a.getLast? = some 47 then a ++ b
  else a ++ 47 :: b

/-! ## Capture region construction -/

/-- A capture rectangle `(left, top, width, height)`. -/
structure Region where
  left : Int
  top : Int
  width : Int
  height : Int
deriving DecidableEq, Repr

/-- `capture_region_by_keys` (book_capture.py, lines 46-65), given the two
recorded corner points and the screen size `pyautogui.size()`: min/max
normalization followed by clamping of left/top into the screen and of
width/height to at least 1 and into the remaining screen extent. -/
def capture_region_by_keys (scrW scrH : Int) (tr bl : Int × Int) : Region :=
  let left0 := min tr.1 bl.1
  let top0 := min tr.2 bl.2
  let right := max tr.1 bl.1
  let bottom := max tr.2 bl.2
  let width0 := right - left0
  let height0 := bottom - top0
  let left := max 0 (min left0 (scrW - 1))
  let top := max 0 (min top0 (scrH - 1))
  let width := max 1 (min width0 (scrW - left))
  let height := max 1 (min height0 (scrH - top))
  ⟨left, top, width, height⟩

/-- The region construction inlined in the GUI's `start_capture`
(BookCapGUI.py, lines 305-309): only `left` and `top` are clamped at 0;
width and height are plain differences, with no screen clamp and no
lower bound of 1. -/
def guiRegion (tr bl : Int × Int) : Region :=
  let left := max 0 (min tr.1 bl.1)
  let top := max 0 (min tr.2 bl.2)
  let right := max tr.1 bl.1
  let bottom := max tr.2 bl.2
  ⟨left, top, right - left, bottom - top⟩

/-! ## The GUI capture worker (BookCapGUI.py, `worker`, lines 313-453)

The worker is driven by the environment: each loop iteration either raises
somewhere in the jiggle/screenshot/save step, or yields a captured frame
(its RGB bytes, `img.convert("RGB").tobytes()`) after which the advance
action (`pyautogui.press`/`click`) either succeeds or raises.  A run is
therefore determined by the options and a finite trace of `StepSpec`s; a
trace that runs out while the loop would continue is reported as `ranOut`
(the modeled program is still inside the loop at that point). -/

/-- One loop iteration's environment outcome: `err` = the screenshot/save
step raises; `frame bytes advOk` = a frame with the given RGB bytes is
captured and saved, and the subsequent advance action succeeds iff `advOk`. -/
inductive StepSpec where
  | err : StepSpec
  | frame (bytes : List Nat) (advOk : Bool) : StepSpec
deriving DecidableEq, Repr

/-- Terminal (or truncated) status of a worker run. -/
inductive Status where
  | stoppedDuplicate (k : Nat) : Status
  | stoppedFixed (k : Nat) : Status
  | stoppedError (k : Nat) : Status
  | ranOut : Status
deriving DecidableEq, Repr

/-- Observable events of a worker run.  `acquire` stands for the whole
stay-awake stack being set up (BookCapGUI.py lines 314-353: NSActivity
begin, caffeinate spawn, pulse thread start); `release` for the `finally`
block tearing all of it down (lines 414-435); `save i`/`remove i` for the
frame file of page `i` being written/deleted; `pdfWrite n` for the PDF being
assembled from `n` surviving files; `notifyDone` for the final UI status
message (lines 450-451). -/
inductive Ev where
  | acquire : Ev
  | release : Ev
  | save (i : Nat) : Ev
  | remove (i : Nat) : Ev
  | pdfWrite (n : Nat) : Ev
  | notifyDone : Ev
deriving DecidableEq, Repr

/-- Result of the capture loop proper: accumulated events, the page indices
of the files present in the save directory, the deleted page indices, and
the status. -/
structure LoopOut where
  events : List Ev
  files : List Nat
  deleted : List Nat
  status : Status
deriving DecidableEq, Repr

/-- `if fixed and page_index >= pages` (BookCapGUI.py line 394). -/
def fixedReached : Option Nat → Nat → Bool
  | some p, i => p ≤ i
  | none, _ => false

/-- The `while True` loop of the worker (BookCapGUI.py lines 371-413).
`prev` is `prev_bytes` (initialized to `None` at line 367), `idx` is
`page_index` (initialized to 0 at line 368), `evs`/`files` accumulate the
events and the directory contents.  Each iteration: increment the index,
capture and save the frame (or stop with an error), then — in source
order — the duplicate check (lines 383-392), the fixed-count check
(line 394), and the advance action (lines 402-413, which may raise). -/
def loopGo (autoStop : Bool) (fixed : Option Nat) :
    List StepSpec → Option (List Nat) → Nat → List Ev → List Nat → LoopOut
  | [], _, _, evs, files => ⟨evs, files, [], .ranOut⟩
  | step :: rest, prev, idx, evs, files =>
    match step with
    | .err => ⟨evs, files, [], .stoppedError (idx + 1)⟩
    | .frame bytes advOk =>
      let i := idx + 1
      let evs1 := evs ++ [Ev.save i]
      let files1 := files ++ [i]
      if autoStop = true ∧ prev = some bytes then
        -- duplicate detected: `os.remove(path)` then `break`
        ⟨evs1 ++ [Ev.remove i], files, [i], .stoppedDuplicate i⟩
      else
        let prev1 := if autoStop then some bytes else prev
        if fixedReached fixed i then
          ⟨evs1, files1, [], .stoppedFixed i⟩
        else if advOk then
          loopGo autoStop fixed rest prev1 i evs1 files1
        else
          ⟨evs1, files1, [], .stoppedError i⟩

/-- Result of a whole worker run. -/
structure WorkerResult where
  events : List Ev
  files : List Nat
  deleted : List Nat
  status : Status
  pdfPages : Option Nat
deriving DecidableEq, Repr

/-- The worker (BookCapGUI.py lines 313-453): acquire the stay-awake stack,
run the loop inside `try`, release the stack in `finally` on every exit of
the loop; only when the loop exited without an exception does the run
continue to PDF assembly (`make_pdf_from_folder`, which yields `None` for an
empty directory and the page count otherwise) and the final UI notification.
An exception (`stoppedError`) propagates out of the worker after the
`finally`, so neither the PDF step nor the notification happens; a trace
that `ranOut` is still inside the loop, so nothing has been released yet. -/
def pdfEvs : Option Nat → List Ev
  | some n => [Ev.pdfWrite n]
  | none => []

def workerRun (autoStop : Bool) (fixed : Option Nat) (steps : List StepSpec) :
    WorkerResult :=
  let lo := loopGo autoStop fixed steps none 0 [Ev.acquire] []
  match lo.status with
  | .ranOut => ⟨lo.events, lo.files, lo.deleted, .ranOut, none⟩
  | .stoppedError k =>
      ⟨lo.events ++ [Ev.release], lo.files, lo.deleted, .stoppedError k, none⟩
  | st =>
      let pdf := if lo.files.isEmpty then none else some lo.files.length
      ⟨lo.events ++ [Ev.release] ++ pdfEvs pdf ++ [Ev.notifyDone],
       lo.files, lo.deleted, st, pdf⟩

/-- Number of occurrences of an event in a trace. -/
def countEv (e : Ev) : List Ev → Nat
  | [] => 0
  | x :: xs => (if x = e then 1 else 0) + countEv e xs

/-- The precondition checks of `start_capture` (BookCapGUI.py lines
282-291): the worker thread is launched only when all three recorded points
are present and the delay text parses as a float. -/
def start_capture_launches (nextXY topRight bottomLeft : Option (Int × Int))
    (delayParses : Bool) : Bool :=
  nextXY.isSome && topRight.isSome && bottomLeft.isSome && delayParses

/-- The fixed-count CLI loop (book_capture.py lines 125-141): `for i in
range(1, total_pages + 1)` saves `page_%04d.png` for each `i`; nothing is
ever deleted.  The resulting directory contents are the page indices 1..N. -/
def bookCaptureFiles (totalPages : Nat) : List Nat :=
  List.range' 1 totalPages

/-! ## Frame filenames `page_%04d.png` -/

/-- Decimal digit bytes of `n`, least significant first, with explicit fuel;
`digitsRevA (n + 1) n` always has enough fuel. -/
def digitsRevA : Nat → Nat → List Nat
  | 0, _ => []
  | fuel + 1, n =>
      if n < 10 then [48 + n] else (48 + n % 10) :: digitsRevA fuel (n / 10)

/-- Decimal representation of `n` as ASCII bytes (Python `"%d" % n`). -/
def natDigits (n : Nat) : List Nat := (digitsRevA (n + 1) n).reverse

/-- Python `f"{i:04d}"`: the decimal digits, left-padded with `0` bytes to a
minimum width of 4 (wider numbers are kept whole, not truncated). -/
def format04 (i : Nat) : List Nat :=
  List.replicate (4 - (natDigits i).length) 48 ++ natDigits i

/-- The frame filename `page_%04d.png` as a byte string (BookCapGUI.py line
379; book_capture.py line 127). -/
def pageFilename (i : Nat) : List Nat :=
  [112, 97, 103, 101, 95] ++ format04 i ++ [46, 112, 110, 103]

/-! ## The standalone assembler (screenshots_to_pdf.py) -/

/-- A candidate file: its path and its stat times.  `birth` is
`st_birthtime` (absent off macOS); times are abstracted to naturals, only
their ordering matters. -/
structure ImgFile where
  path : List Nat
  birth : Option Nat
  mtime : Nat
deriving DecidableEq, Repr

/-- `get_times` (screenshots_to_pdf.py lines 11-17):
`(birth if birth else mtime, mtime)`.  A present-but-zero birth time is
falsy in Python and also falls back to `mtime`. -/
def get_times (f : ImgFile) : Nat × Nat :=
  (match f.birth with
   | some b => if b = 0 then f.mtime else b
   | none => f.mtime,
   f.mtime)

/-- `os.path.basename(p).lower()`, the filename tie-breaker. -/
def lowerName (f : ImgFile) : List Nat := lowerBytes (basenameBytes f.path)

/-- The three `--sort` modes of the assembler CLI. -/
inductive SortMode where
  | ctime : SortMode
  | mtime : SortMode
  | nameMode : SortMode
deriving DecidableEq, Repr

/-- The sort key of each mode, uniformly padded to a triple so one order
relation serves all three; the padding components are constants, so the
lexicographic order on the triple coincides with Python's comparison of the
actual key tuples:
* `ctime` (lines 68-70): `(*get_times(x), basename(x).lower())`;
* `mtime` (lines 65-67): `(getmtime(x), basename(x).lower())`;
* `name` (lines 63-64): `basename(x).lower()`. -/
def sortKey : SortMode → ImgFile → Nat × Nat × List Nat
  | .ctime, f => ((get_times f).1, (get_times f).2, lowerName f)
  | .mtime, f => (f.mtime, 0, lowerName f)
  | .nameMode, f => (0, 0, lowerName f)

/-- Lexicographic `≤` on key triples — Python tuple/string comparison. -/
def keyLeB (x y : Nat × Nat × List Nat) : Bool :=
  if x.1 < y.1 then true
  else if y.1 < x.1 then false
  else if x.2.1 < y.2.1 then true
  else if y.2.1 < x.2.1 then false
  else lexLeB x.2.2 y.2.2

/-- The comparison `sorted` uses: ascending by key, or — under `--reverse` —
as if each comparison were reversed (Python's `reverse=True`, which keeps
the sort stable). -/
def fileLe (sm : SortMode) (rev : Bool) (a b : ImgFile) : Prop :=
  (if rev then keyLeB (sortKey sm b) (sortKey sm a)
   else keyLeB (sortKey sm a) (sortKey sm b)) = true

instance (sm : SortMode) (rev : Bool) : DecidableRel (fileLe sm rev) :=
  fun _ _ => inferInstanceAs (Decidable (_ = true))

/-- Python `sorted(files, key=..., reverse=...)` is a stable sort; for a
total transitive comparison its output coincides with stable insertion
sort, which is how it is embedded here. -/
def sortedFiles (sm : SortMode) (rev : Bool) (fs : List ImgFile) :
    List ImgFile :=
  List.insertionSort (fileLe sm rev) fs

/-- Observable outcome of one run of the assembler CLI. -/
structure AsmResult where
  exitCode : Nat
  wrotePdf : Bool
  outPath : Option (List Nat)
  printedOrder : Option (List ImgFile)
deriving DecidableEq, Repr

/-- `main` of screenshots_to_pdf.py (lines 50-86), given the environment:
whether the resolved folder is a directory, the files the glob matched
(with their stat times), and the parsed arguments.  A non-directory exits 1;
zero image files after the `is_image` filter exits 1; otherwise the order is
resolved and printed, and the PDF is written to
`os.path.join(folder, args.out)` (line 79), exiting 0. -/
def assemblerMain (isDir : Bool) (globbed : List ImgFile) (sm : SortMode)
    (rev : Bool) (folder outName : List Nat) : AsmResult :=
  if isDir = false then ⟨1, false, none, none⟩
  else
    let files := globbed.filter (fun f => is_image f.path)
    if files.isEmpty then ⟨1, false, none, none⟩
    else
      ⟨0, true, some (joinPath folder outName), some (sortedFiles sm rev files)⟩

/-! ## Helper lemmas about the capture loop -/

theorem countEv_append (e : Ev) (l1 l2 : List Ev) :
    countEv e (l1 ++ l2) = countEv e l1 + countEv e l2 := by
  induction l1 with
  | nil => simp [countEv]
  | cons x xs ih => simp [countEv, ih]; omega

theorem countEv_eq_zero {e : Ev} {l : List Ev} (h : ∀ x ∈ l, x ≠ e) :
    countEv e l = 0 := by
  induction l with
  | nil => rfl
  | cons x xs ih =>
      have hx : x ≠ e := h x (by simp)
      simp [countEv, hx, ih fun y hy => h y (by simp [hy])]

theorem loopGo_nil (a : Bool) (f : Option Nat) (prev : Option (List Nat))
    (idx : Nat) (evs : List Ev) (files : List Nat) :
    loopGo a f [] prev idx evs files = ⟨evs, files, [], .ranOut⟩ := rfl

theorem loopGo_err (a : Bool) (f : Option Nat) (rest : List StepSpec)
    (prev : Option (List Nat)) (idx : Nat) (evs : List Ev) (files : List Nat) :
    loopGo a f (.err :: rest) prev idx evs files
      = ⟨evs, files, [], .stoppedError (idx + 1)⟩ := rfl

theorem loopGo_frame_dup {a : Bool} {prev : Option (List Nat)}
    {bytes : List Nat} (f : Option Nat) (rest : List StepSpec) (advOk : Bool)
    (idx : Nat) (evs : List Ev) (files : List Nat)
    (h : a = true ∧ prev = some bytes) :
    loopGo a f (.frame bytes advOk :: rest) prev idx evs files
      = ⟨evs ++ [Ev.save (idx + 1)] ++ [Ev.remove (idx + 1)], files, [idx + 1],
          .stoppedDuplicate (idx + 1)⟩ := by
  simp [loopGo, h.1, h.2]

theorem loopGo_frame_fixed {a : Bool} {f : Option Nat}
    {prev : Option (List Nat)} {bytes : List Nat} {idx : Nat}
    (rest : List StepSpec) (advOk : Bool) (evs : List Ev) (files : List Nat)
    (h1 : ¬(a = true ∧ prev = some bytes))
    (h2 : fixedReached f (idx + 1) = true) :
    loopGo a f (.frame bytes advOk :: rest) prev idx evs files
      = ⟨evs ++ [Ev.save (idx + 1)], files ++ [idx + 1], [],
          .stoppedFixed (idx + 1)⟩ := by
  simp [loopGo, h1, h2]

theorem loopGo_frame_adv {a : Bool} {f : Option Nat}
    {prev : Option (List Nat)} {bytes : List Nat} {idx : Nat}
    (rest : List StepSpec) (evs : List Ev) (files : List Nat)
    (h1 : ¬(a = true ∧ prev = some bytes))
    (h2 : fixedReached f (idx + 1) = false) :
    loopGo a f (.frame bytes true :: rest) prev idx evs files
      = loopGo a f rest (if a then some bytes else prev) (idx + 1)
          (evs ++ [Ev.save (idx + 1)]) (files ++ [idx + 1]) := by
  simp [loopGo, h1, h2]

theorem loopGo_frame_adverr {a : Bool} {f : Option Nat}
    {prev : Option (List Nat)} {bytes : List Nat} {idx : Nat}
    (rest : List StepSpec) (evs : List Ev) (files : List Nat)
    (h1 : ¬(a = true ∧ prev = some bytes))
    (h2 : fixedReached f (idx + 1) = false) :
    loopGo a f (.frame bytes false :: rest) prev idx evs files
      = ⟨evs ++ [Ev.save (idx + 1)], files ++ [idx + 1], [],
          .stoppedError (idx + 1)⟩ := by
  simp [loopGo, h1, h2]

/-- The loop only appends save/remove events to the accumulated trace. -/
theorem loopGo_events_shape (a : Bool) (f : Option Nat) :
    ∀ (steps : List StepSpec) (prev : Option (List Nat)) (idx : Nat)
      (evs : List Ev) (files : List Nat),
      ∃ tail, (loopGo a f steps prev idx evs files).events = evs ++ tail ∧
        ∀ e ∈ tail, ∃ i, e = Ev.save i ∨ e = Ev.remove i := by
  intro steps
  induction steps with
  | nil =>
      intro prev idx evs files
      exact ⟨[], by simp [loopGo_nil], by simp⟩
  | cons s rest ih =>
      intro prev idx evs files
      cases s with
      | err => exact ⟨[], by simp [loopGo_err], by simp⟩
      | frame bytes advOk =>
          by_cases hdup : a = true ∧ prev = some bytes
          · refine ⟨[Ev.save (idx + 1), Ev.remove (idx + 1)], ?_, ?_⟩
            · simp [loopGo_frame_dup f rest advOk idx evs files hdup]
            · intro e he
              simp only [List.mem_cons, List.mem_singleton, List.not_mem_nil,
                or_false] at he
              rcases he with h | h
              · exact ⟨idx + 1, Or.inl h⟩
              · exact ⟨idx + 1, Or.inr h⟩
          · rcases h2 : fixedReached f (idx + 1) with _ | _
            · cases advOk with
              | true =>
                  obtain ⟨t, ht, hall⟩ :=
                    ih (if a then some bytes else prev) (idx + 1)
                      (evs ++ [Ev.save (idx + 1)]) (files ++ [idx + 1])
                  refine ⟨Ev.save (idx + 1) :: t, ?_, ?_⟩
                  · rw [loopGo_frame_adv rest evs files hdup h2, ht]
                    simp
                  · intro e he
                    simp only [List.mem_cons] at he
                    rcases he with h | h
                    · exact ⟨idx + 1, Or.inl h⟩
                    · exact hall e h
              | false =>
                  refine ⟨[Ev.save (idx + 1)], ?_, ?_⟩
                  · simp [loopGo_frame_adverr rest evs files hdup h2]
                  · intro e he
                    simp only [List.mem_singleton] at he
                    exact ⟨idx + 1, Or.inl he⟩
            · refine ⟨[Ev.save (idx + 1)], ?_, ?_⟩
              · simp [loopGo_frame_fixed rest advOk evs files hdup h2]
              · intro e he
                simp only [List.mem_singleton] at he
                exact ⟨idx + 1, Or.inl he⟩

theorem countEv_pdfEvs_acquire (o : Option Nat) :
    countEv Ev.acquire (pdfEvs o) = 0 := by cases o <;> rfl

theorem countEv_pdfEvs_release (o : Option Nat) :
    countEv Ev.release (pdfEvs o) = 0 := by cases o <;> rfl

theorem countEv_pdfEvs_notify (o : Option Nat) :
    countEv Ev.notifyDone (pdfEvs o) = 0 := by cases o <;> rfl

/-- If the loop reached a duplicate stop at `K` then `K` is at least two
iterations past the entry index, provided `prev_bytes` was `None` on entry
(the comparison at line 385 is guarded by `prev_bytes is not None`). -/
theorem loopGo_dup_ge (a : Bool) (f : Option Nat) :
    ∀ (steps : List StepSpec) (prev : Option (List Nat)) (idx : Nat)
      (evs : List Ev) (files : List Nat) (K : Nat),
      (loopGo a f steps prev idx evs files).status = .stoppedDuplicate K →
        idx + 1 ≤ K ∧ (prev = none → idx + 2 ≤ K) := by
  intro steps
  induction steps with
  | nil => intro prev idx evs files K h; simp [loopGo_nil] at h
  | cons s rest ih =>
      intro prev idx evs files K h
      cases s with
      | err => simp [loopGo_err] at h
      | frame bytes advOk =>
          by_cases hdup : a = true ∧ prev = some bytes
          · rw [loopGo_frame_dup f rest advOk idx evs files hdup] at h
            simp only [Status.stoppedDuplicate.injEq] at h
            refine ⟨by omega, fun hp => ?_⟩
            rw [hp] at hdup
            exact absurd hdup.2 (by simp)
          · rcases h2 : fixedReached f (idx + 1) with _ | _
            · cases advOk with
              | true =>
                  rw [loopGo_frame_adv rest evs files hdup h2] at h
                  have := (ih _ _ _ _ _ h).1
                  exact ⟨by omega, fun _ => by omega⟩
              | false =>
                  rw [loopGo_frame_adverr rest evs files hdup h2] at h
                  simp at h
            · rw [loopGo_frame_fixed rest advOk evs files hdup h2] at h
              simp at h

/-- Files present on entering the loop are still present whenever it
stops: only the final duplicate frame is ever removed. -/
theorem loopGo_files_mono (a : Bool) (f : Option Nat) :
    ∀ (steps : List StepSpec) (prev : Option (List Nat)) (idx : Nat)
      (evs : List Ev) (files : List Nat),
      files ⊆ (loopGo a f steps prev idx evs files).files := by
  intro steps
  induction steps with
  | nil => intro prev idx evs files; simp [loopGo_nil]
  | cons s rest ih =>
      intro prev idx evs files
      cases s with
      | err => simp [loopGo_err]
      | frame bytes advOk =>
          by_cases hdup : a = true ∧ prev = some bytes
          · rw [loopGo_frame_dup f rest advOk idx evs files hdup]
            exact fun x hx => hx
          · rcases h2 : fixedReached f (idx + 1) with _ | _
            · cases advOk with
              | true =>
                  rw [loopGo_frame_adv rest evs files hdup h2]
                  exact (List.subset_append_left files [idx + 1]).trans
                    (ih _ _ _ _)
              | false =>
                  rw [loopGo_frame_adverr rest evs files hdup h2]
                  exact List.subset_append_left files [idx + 1]
            · rw [loopGo_frame_fixed rest advOk evs files hdup h2]
              exact List.subset_append_left files [idx + 1]

/-- C1: the Keep-Awake Service (NSActivity, caffeinate, user-activity
pulse — BookCapGUI.py lines 314-353) is acquired exactly once at capture
loop start and released exactly once in the `finally` block (lines
414-435), on every terminating exit path of the loop: duplicate stop,
fixed-count stop, or an exception in any iteration. -/
theorem C1_keep_awake_paired (autoStop : Bool) (fixed : Option Nat)
    (steps : List StepSpec)
    (hterm : (workerRun autoStop fixed steps).status ≠ .ranOut) :
    countEv Ev.acquire (workerRun autoStop fixed steps).events = 1 ∧
    countEv Ev.release (workerRun autoStop fixed steps).events = 1 := by
  obtain ⟨tail, ht, hall⟩ :=
    loopGo_events_shape autoStop fixed steps none 0 [Ev.acquire] []
  have hacq : countEv Ev.acquire tail = 0 := by
    refine countEv_eq_zero fun x hx => ?_
    obtain ⟨i, hi | hi⟩ := hall x hx <;> simp [hi]
  have hrel : countEv Ev.release tail = 0 := by
    refine countEv_eq_zero fun x hx => ?_
    obtain ⟨i, hi | hi⟩ := hall x hx <;> simp [hi]
  rcases hs : (loopGo autoStop fixed steps none 0 [Ev.acquire] []).status with
    K | K | K | _
  · simp only [workerRun, hs]
    rw [ht]
    simp [countEv_append, countEv_pdfEvs_acquire, countEv_pdfEvs_release,
      hacq, hrel, countEv]
  · simp only [workerRun, hs]
    rw [ht]
    simp [countEv_append, countEv_pdfEvs_acquire, countEv_pdfEvs_release,
      hacq, hrel, countEv]
  · simp only [workerRun, hs]
    rw [ht]
    simp [countEv_append, hacq, hrel, countEv]
  · exact absurd (by simp only [workerRun, hs]) hterm

/-- C1 witness: a concrete two-frame duplicate-stop run pairs acquire and
release 1:1. -/
theorem C1_witness :
    (workerRun true none [.frame [1] true, .frame [1] true]).status ≠
        .ranOut ∧
    countEv Ev.acquire
        (workerRun true none [.frame [1] true, .frame [1] true]).events = 1 ∧
    countEv Ev.release
        (workerRun true none [.frame [1] true, .frame [1] true]).events = 1 :=
  ⟨by decide, C1_keep_awake_paired true none _ (by decide)⟩

/-- C9: duplicate-stop can never fire on the first iteration: `prev_bytes`
starts as `None` and is only compared when non-`None`, so a session that
stops via duplicate detection has stop index `K ≥ 2` and page 1 still on
disk. -/
theorem C9_dup_needs_two (autoStop : Bool) (fixed : Option Nat)
    (steps : List StepSpec) (K : Nat)
    (h : (workerRun autoStop fixed steps).status = .stoppedDuplicate K) :
    2 ≤ K ∧ 1 ∈ (workerRun autoStop fixed steps).files := by
  rcases hs : (loopGo autoStop fixed steps none 0 [Ev.acquire] []).status with
    K' | K' | K' | _
  case stoppedDuplicate =>
    have hK : K' = K := by
      simp only [workerRun, hs] at h
      exact Status.stoppedDuplicate.inj h
    subst hK
    have hge := (loopGo_dup_ge autoStop fixed steps none 0 [Ev.acquire] [] K'
      hs).2 rfl
    have hfiles : (workerRun autoStop fixed steps).files =
        (loopGo autoStop fixed steps none 0 [Ev.acquire] []).files := by
      simp only [workerRun, hs]
    refine ⟨by omega, ?_⟩
    rw [hfiles]
    -- the first step must have been a successfully advanced frame
    cases steps with
    | nil => simp [loopGo_nil] at hs
    | cons s rest =>
        cases s with
        | err => simp [loopGo_err] at hs
        | frame bytes advOk =>
            have hdup : ¬(autoStop = true ∧ (none : Option (List Nat)) =
                some bytes) := by simp
            rcases h2 : fixedReached fixed 1 with _ | _
            · cases advOk with
              | true =>
                  rw [loopGo_frame_adv rest [Ev.acquire] [] hdup h2] at hs ⊢
                  exact loopGo_files_mono autoStop fixed rest _ 1 _ [0 + 1]
                    (by simp)
              | false =>
                  rw [loopGo_frame_adverr rest [Ev.acquire] [] hdup h2] at hs
                  simp at hs
            · rw [loopGo_frame_fixed rest advOk [Ev.acquire] [] hdup h2] at hs
              simp at hs
  all_goals simp only [workerRun, hs] at h; simp at h

/-- C9 witness: the smallest duplicate-stopping run stops at `K = 2` with
page 1 surviving. -/
theorem C9_witness :
    (workerRun true none [.frame [1] true, .frame [1] true]).status =
        .stoppedDuplicate 2 ∧
    2 ≤ 2 ∧
    1 ∈ (workerRun true none [.frame [1] true, .frame [1] true]).files :=
  ⟨by decide, C9_dup_needs_two true none _ 2 (by decide)⟩

theorem drop_cons_getD (l : List (List Nat)) (m : Nat) (h : m < l.length) :
    l.drop m = l.getD m [] :: l.drop (m + 1) := by
  rw [List.drop_eq_getElem_cons h, List.getD_eq_getElem l [] h]

theorem range'_concat_one (m : Nat) :
    List.range' 1 m ++ [m + 1] = List.range' 1 (m + 1) := by
  rw [List.range'_concat]
  simp [Nat.add_comm]

theorem range'_one_ne_nil (n : Nat) (h : 1 ≤ n) :
    (List.range' 1 n).isEmpty = false := by
  cases n with
  | zero => omega
  | succ m => simp [List.range']

/-- Running the loop (duplicate-stop on, no fixed target) from the state
after `m` successfully captured, pairwise-distinct frames: if the first
consecutive duplicate of the frame stream `bs` is at capture index `K`
(1-based), the loop stops there with status `stoppedDuplicate K`, the
duplicate file deleted, and files 1..K-1 surviving. -/
theorem loopGo_run_to_dup (bs : List (List Nat)) (K : Nat)
    (hlen : K ≤ bs.length)
    (hdup : bs.getD (K - 1) [] = bs.getD (K - 2) [])
    (hne : ∀ t, t + 2 ≤ K - 1 → bs.getD t [] ≠ bs.getD (t + 1) []) :
    ∀ (d m : Nat) (evs : List Ev), 1 ≤ m → m + d + 1 = K →
      (loopGo true none ((bs.drop m).map (fun b => StepSpec.frame b true))
          (some (bs.getD (m - 1) [])) m evs (List.range' 1 m)).status
            = .stoppedDuplicate K ∧
      (loopGo true none ((bs.drop m).map (fun b => StepSpec.frame b true))
          (some (bs.getD (m - 1) [])) m evs (List.range' 1 m)).files
            = List.range' 1 (K - 1) ∧
      (loopGo true none ((bs.drop m).map (fun b => StepSpec.frame b true))
          (some (bs.getD (m - 1) [])) m evs (List.range' 1 m)).deleted
            = [K] := by
  intro d
  induction d with
  | zero =>
      intro m evs h1 h2
      have hmlt : m < bs.length := by omega
      rw [drop_cons_getD bs m hmlt, List.map_cons]
      have hcond : (true : Bool) = true ∧
          some (bs.getD (m - 1) []) = some (bs.getD m []) := by
        refine ⟨rfl, ?_⟩
        have e1 : m - 1 = K - 2 := by omega
        have e2 : m = K - 1 := by omega
        rw [e1, e2, hdup]
      rw [loopGo_frame_dup none _ true m evs (List.range' 1 m) hcond]
      refine ⟨?_, ?_, ?_⟩
      · simp only [Status.stoppedDuplicate.injEq]; omega
      · have : m = K - 1 := by omega
        rw [this]
      · simp only [List.cons.injEq, and_true]; omega
  | succ d ih =>
      intro m evs h1 h2
      have hmlt : m < bs.length := by omega
      rw [drop_cons_getD bs m hmlt, List.map_cons]
      have hcond : ¬((true : Bool) = true ∧
          some (bs.getD (m - 1) []) = some (bs.getD m []) ) := by
        rintro ⟨-, hsome⟩
        have e1 : (m - 1) + 2 ≤ K - 1 := by omega
        have e2 : (m - 1) + 1 = m := by omega
        exact hne (m - 1) e1 (by rw [e2]; exact Option.some.inj hsome)
      have hfix : fixedReached none (m + 1) = false := rfl
      rw [loopGo_frame_adv _ evs (List.range' 1 m) hcond hfix]
      have hpr : (if true then some (bs.getD m []) else
          some (bs.getD (m - 1) [])) = some (bs.getD ((m + 1) - 1) []) := by
        simp
      rw [hpr, range'_concat_one]
      exact ih (m + 1) (evs ++ [Ev.save (m + 1)]) (by omega) (by omega)

/-- C2: with duplicate-stop enabled (and no fixed page target), a frame
stream whose first consecutive byte-equal pair is (K-1, K) makes the worker
stop at iteration K, delete frame K's file, keep exactly files 1..K-1, and
produce a PDF of exactly K-1 pages. -/
theorem C2_duplicate_stop (bs : List (List Nat)) (K : Nat)
    (hK : 2 ≤ K) (hlen : K ≤ bs.length)
    (hdup : bs.getD (K - 1) [] = bs.getD (K - 2) [])
    (hne : ∀ t, t + 2 ≤ K - 1 → bs.getD t [] ≠ bs.getD (t + 1) []) :
    (workerRun true none (bs.map (fun b => StepSpec.frame b true))).status
        = .stoppedDuplicate K ∧
    (workerRun true none (bs.map (fun b => StepSpec.frame b true))).deleted
        = [K] ∧
    (workerRun true none (bs.map (fun b => StepSpec.frame b true))).files
        = List.range' 1 (K - 1) ∧
    (workerRun true none (bs.map (fun b => StepSpec.frame b true))).pdfPages
        = some (K - 1) := by
  -- run the first iteration by hand (prev_bytes is still None there)
  cases bs with
  | nil => simp at hlen; omega
  | cons b0 bs' =>
      have hstep :
          loopGo true none ((b0 :: bs').map (fun b => StepSpec.frame b true))
              none 0 [Ev.acquire] []
            = loopGo true none ((bs'.map (fun b => StepSpec.frame b true)))
              (some b0) 1 [Ev.acquire, Ev.save 1] [1] := by
        rw [List.map_cons]
        have hdup0 : ¬((true : Bool) = true ∧ (none : Option (List Nat)) =
            some b0) := by simp
        have hfix0 : fixedReached none (0 + 1) = false := rfl
        rw [loopGo_frame_adv _ [Ev.acquire] [] hdup0 hfix0]
        simp
      have hform : bs'.map (fun b => StepSpec.frame b true)
          = ((b0 :: bs').drop 1).map (fun b => StepSpec.frame b true) := rfl
      have hprev : (some b0 : Option (List Nat))
          = some ((b0 :: bs').getD (1 - 1) []) := rfl
      have hfiles : ([1] : List Nat) = List.range' 1 1 := rfl
      have hrun := loopGo_run_to_dup (b0 :: bs') K hlen hdup hne (K - 2) 1
        [Ev.acquire, Ev.save 1] (by omega) (by omega)
      rw [hform, hprev, hfiles] at hstep
      obtain ⟨hst, hfl, hdl⟩ := hrun
      rw [← hstep] at hst hfl hdl
      simp only [workerRun, hst, hfl, hdl]
      have hne' : (List.range' 1 (K - 1)).isEmpty = false :=
        range'_one_ne_nil (K - 1) (by omega)
      simp [hne', List.length_range']

/-- C2 witness: frames [1],[2],[2] stop at K = 3, delete page 3, keep pages
1-2, and the PDF has 2 pages. -/
theorem C2_witness :
    2 ≤ 3 ∧
    (3 ≤ ([[1], [2], [2]] : List (List Nat)).length) ∧
    ([[1], [2], [2]] : List (List Nat)).getD 2 [] =
      ([[1], [2], [2]] : List (List Nat)).getD 1 [] ∧
    (workerRun true none
        (([[1], [2], [2]] : List (List Nat)).map
          (fun b => StepSpec.frame b true))).status = .stoppedDuplicate 3 ∧
    (workerRun true none
        (([[1], [2], [2]] : List (List Nat)).map
          (fun b => StepSpec.frame b true))).pdfPages = some 2 := by
  have h := C2_duplicate_stop [[1], [2], [2]] 3 (by decide) (by decide)
    (by decide)
    (by intro t ht; have ht0 : t = 0 := by omega
        subst ht0; decide)
  exact ⟨by decide, by decide, by decide, h.1, h.2.2.2⟩

/-- Running the loop with fixed page target `N` from the state after `m`
frames, when no two consecutive frames among the first `N` are byte-equal:
it stops with `stoppedFixed N`, keeps files 1..N and deletes nothing. -/
theorem loopGo_run_to_fixed (bs : List (List Nat)) (a : Bool) (N : Nat)
    (hlen : N ≤ bs.length)
    (hne : ∀ t, t + 2 ≤ N → bs.getD t [] ≠ bs.getD (t + 1) []) :
    ∀ (d m : Nat) (evs : List Ev), 1 ≤ m → m + d + 1 = N →
      (loopGo a (some N) ((bs.drop m).map (fun b => StepSpec.frame b true))
          (if a then some (bs.getD (m - 1) []) else none) m evs
          (List.range' 1 m)).status = .stoppedFixed N ∧
      (loopGo a (some N) ((bs.drop m).map (fun b => StepSpec.frame b true))
          (if a then some (bs.getD (m - 1) []) else none) m evs
          (List.range' 1 m)).files = List.range' 1 N ∧
      (loopGo a (some N) ((bs.drop m).map (fun b => StepSpec.frame b true))
          (if a then some (bs.getD (m - 1) []) else none) m evs
          (List.range' 1 m)).deleted = [] := by
  intro d
  induction d with
  | zero =>
      intro m evs h1 h2
      have hmlt : m < bs.length := by omega
      rw [drop_cons_getD bs m hmlt, List.map_cons]
      have hcond : ¬(a = true ∧
          (if a then some (bs.getD (m - 1) []) else none)
            = some (bs.getD m []) ) := by
        rintro ⟨ha, hsome⟩
        rw [ha, if_pos rfl] at hsome
        have e1 : (m - 1) + 2 ≤ N := by omega
        have e2 : (m - 1) + 1 = m := by omega
        exact hne (m - 1) e1 (by rw [e2]; exact Option.some.inj hsome)
      have hfix : fixedReached (some N) (m + 1) = true := by
        simp only [fixedReached, decide_eq_true_eq]; omega
      rw [loopGo_frame_fixed _ true evs (List.range' 1 m) hcond hfix]
      refine ⟨?_, ?_, rfl⟩
      · simp only [Status.stoppedFixed.injEq]; omega
      · rw [range'_concat_one]
        have : m + 1 = N := by omega
        rw [this]
  | succ d ih =>
      intro m evs h1 h2
      have hmlt : m < bs.length := by omega
      rw [drop_cons_getD bs m hmlt, List.map_cons]
      have hcond : ¬(a = true ∧
          (if a then some (bs.getD (m - 1) []) else none)
            = some (bs.getD m []) ) := by
        rintro ⟨ha, hsome⟩
        rw [ha, if_pos rfl] at hsome
        have e1 : (m - 1) + 2 ≤ N := by omega
        have e2 : (m - 1) + 1 = m := by omega
        exact hne (m - 1) e1 (by rw [e2]; exact Option.some.inj hsome)
      have hfix : fixedReached (some N) (m + 1) = false := by
        simp only [fixedReached, decide_eq_false_iff_not]; omega
      rw [loopGo_frame_adv _ evs (List.range' 1 m) hcond hfix]
      have hpr : (if a then some (bs.getD m []) else
          (if a then some (bs.getD (m - 1) []) else none))
            = (if a then some (bs.getD ((m + 1) - 1) []) else none) := by
        cases a <;> simp
      rw [hpr, range'_concat_one]
      exact ih (m + 1) (evs ++ [Ev.save (m + 1)]) (by omega) (by omega)

/-- C3: in fixed-count mode with target `N ≥ 1` and no two consecutive
byte-equal frames among the first `N`, the worker saves exactly frames
1..N, deletes none of them, stops with `stoppedFixed N`, and the PDF has
exactly `N` pages; the CLI variant's `for` loop likewise yields files
1..N. -/
theorem C3_fixed_count (bs : List (List Nat)) (a : Bool) (N : Nat)
    (hN : 1 ≤ N) (hlen : N ≤ bs.length)
    (hne : ∀ t, t + 2 ≤ N → bs.getD t [] ≠ bs.getD (t + 1) []) :
    (workerRun a (some N) (bs.map (fun b => StepSpec.frame b true))).status
        = .stoppedFixed N ∧
    (workerRun a (some N) (bs.map (fun b => StepSpec.frame b true))).files
        = List.range' 1 N ∧
    (workerRun a (some N) (bs.map (fun b => StepSpec.frame b true))).deleted
        = [] ∧
    (workerRun a (some N) (bs.map (fun b => StepSpec.frame b true))).pdfPages
        = some N ∧
    bookCaptureFiles N = List.range' 1 N ∧
    (bookCaptureFiles N).length = N := by
  cases bs with
  | nil => simp at hlen; omega
  | cons b0 bs' =>
      have hdup0 : ¬(a = true ∧ (none : Option (List Nat)) = some b0) := by
        simp
      by_cases hN1 : N = 1
      · subst hN1
        have hfix0 : fixedReached (some 1) (0 + 1) = true := rfl
        have hst := loopGo_frame_fixed (a := a)
          (bs'.map (fun b => StepSpec.frame b true)) true [Ev.acquire] []
          hdup0 hfix0
        rw [List.map_cons]
        simp only [workerRun, hst]
        simp [bookCaptureFiles, List.range']
      · -- N ≥ 2: run the first iteration by hand, then the run lemma
        have hfix0 : fixedReached (some N) (0 + 1) = false := by
          simp only [fixedReached, decide_eq_false_iff_not]; omega
        have hstep :
            loopGo a (some N)
                ((b0 :: bs').map (fun b => StepSpec.frame b true))
                none 0 [Ev.acquire] []
              = loopGo a (some N)
                (((b0 :: bs').drop 1).map (fun b => StepSpec.frame b true))
                (if a then some ((b0 :: bs').getD (1 - 1) []) else none) 1
                [Ev.acquire, Ev.save 1] (List.range' 1 1) := by
          rw [List.map_cons]
          rw [loopGo_frame_adv _ [Ev.acquire] [] hdup0 hfix0]
          cases a <;> rfl
        have hrun := loopGo_run_to_fixed (b0 :: bs') a N hlen hne (N - 2) 1
          [Ev.acquire, Ev.save 1] (by omega) (by omega)
        obtain ⟨hst, hfl, hdl⟩ := hrun
        rw [← hstep] at hst hfl hdl
        simp only [workerRun, hst, hfl, hdl]
        have hne' : (List.range' 1 N).isEmpty = false :=
          range'_one_ne_nil N (by omega)
        simp [hne', List.length_range', bookCaptureFiles]

/-- C3 witness: three distinct frames with target 3 give a fixed stop at 3
and a 3-page PDF. -/
theorem C3_witness :
    1 ≤ 3 ∧
    (workerRun true (some 3)
        (([[1], [2], [3]] : List (List Nat)).map
          (fun b => StepSpec.frame b true))).status = .stoppedFixed 3 ∧
    (workerRun true (some 3)
        (([[1], [2], [3]] : List (List Nat)).map
          (fun b => StepSpec.frame b true))).pdfPages = some 3 := by
  have h := C3_fixed_count [[1], [2], [3]] true 3 (by decide) (by decide)
    (by intro t ht
        have ht01 : t = 0 ∨ t = 1 := by omega
        rcases ht01 with h0 | h1
        · subst h0; decide
        · subst h1; decide)
  exact ⟨by decide, h.1, h.2.2.2.1⟩

/-- C7 counterexample: a failure in the first iteration's screenshot/save
step leaves the worker with a propagating exception — the run ends in
`stoppedError` with zero UI notifications and no PDF, so the failure is
not "caught at the loop boundary and converted into a terminal state
communicated back as a UI status message": the `try` at BookCapGUI.py line
370 has a `finally` but no `except`, and the completion message at lines
450-451 is never reached. -/
theorem C7_counterexample :
    (workerRun true none [StepSpec.err]).status = .stoppedError 1 ∧
    countEv Ev.notifyDone (workerRun true none [StepSpec.err]).events = 0 ∧
    (workerRun true none [StepSpec.err]).pdfPages = none := by
  decide

/-- C7 amended: a failure inside any iteration still runs the FINALIZING
cleanup exactly once (the `finally` block), but is not caught: the worker
ends without any UI notification and without assembling a PDF; invalid
startup configuration (a missing recorded point) is rejected before the
loop starts. -/
theorem C7_error_path (autoStop : Bool) (fixed : Option Nat)
    (steps : List StepSpec) (k : Nat)
    (herr : (workerRun autoStop fixed steps).status = .stoppedError k) :
    countEv Ev.release (workerRun autoStop fixed steps).events = 1 ∧
    countEv Ev.notifyDone (workerRun autoStop fixed steps).events = 0 ∧
    (workerRun autoStop fixed steps).pdfPages = none ∧
    (∀ (tr bl : Option (Int × Int)) (dp : Bool),
        start_capture_launches none tr bl dp = false) := by
  obtain ⟨tail, ht, hall⟩ :=
    loopGo_events_shape autoStop fixed steps none 0 [Ev.acquire] []
  have hrel : countEv Ev.release tail = 0 := by
    refine countEv_eq_zero fun x hx => ?_
    obtain ⟨i, hi | hi⟩ := hall x hx <;> simp [hi]
  have hnd : countEv Ev.notifyDone tail = 0 := by
    refine countEv_eq_zero fun x hx => ?_
    obtain ⟨i, hi | hi⟩ := hall x hx <;> simp [hi]
  rcases hs : (loopGo autoStop fixed steps none 0 [Ev.acquire] []).status with
    K | K | K | _
  · simp only [workerRun, hs] at herr; simp at herr
  · simp only [workerRun, hs] at herr; simp at herr
  · refine ⟨?_, ?_, ?_, ?_⟩
    · simp only [workerRun, hs]
      rw [ht]
      simp [countEv_append, hrel, countEv]
    · simp only [workerRun, hs]
      rw [ht]
      simp [countEv_append, hnd, countEv]
    · simp only [workerRun, hs]
    · intro tr bl dp; simp [start_capture_launches]
  · simp only [workerRun, hs] at herr; simp at herr

/-- C7 witness: the single-error run exercises the amended error path. -/
theorem C7_witness :
    (workerRun true none [StepSpec.err]).status = .stoppedError 1 ∧
    countEv Ev.release (workerRun true none [StepSpec.err]).events = 1 ∧
    (workerRun true none [StepSpec.err]).pdfPages = none :=
  ⟨by decide, (C7_error_path true none [StepSpec.err] 1 (by decide)).1,
    (C7_error_path true none [StepSpec.err] 1 (by decide)).2.2.1⟩

/-- C4 counterexample: the GUI variant's region construction (BookCapGUI.py
lines 305-309) violates the claimed `width ≥ 1` invariant: two corners
sharing an x-coordinate give width 0 (and there is no screen clamping at
all in that variant). -/
theorem C4_counterexample :
    ¬(1 ≤ (guiRegion (5, 5) (5, 9)).width) := by decide

/-- C4 amended: region normalization is order-independent in both variants,
and for the CLI variant `capture_region_by_keys` (book_capture.py lines
46-65) it is also idempotent with `width ≥ 1`, `height ≥ 1` and the
rectangle inside the screen; the GUI variant guarantees neither the lower
bound 1 nor screen clamping. -/
theorem C4_region_normalization (scrW scrH : Int) (tr bl : Int × Int)
    (hw : 1 ≤ scrW) (hh : 1 ≤ scrH) :
    capture_region_by_keys scrW scrH tr bl
        = capture_region_by_keys scrW scrH bl tr ∧
    guiRegion tr bl = guiRegion bl tr ∧
    1 ≤ (capture_region_by_keys scrW scrH tr bl).width ∧
    1 ≤ (capture_region_by_keys scrW scrH tr bl).height ∧
    0 ≤ (capture_region_by_keys scrW scrH tr bl).left ∧
    0 ≤ (capture_region_by_keys scrW scrH tr bl).top ∧
    (capture_region_by_keys scrW scrH tr bl).left
        + (capture_region_by_keys scrW scrH tr bl).width ≤ scrW ∧
    (capture_region_by_keys scrW scrH tr bl).top
        + (capture_region_by_keys scrW scrH tr bl).height ≤ scrH ∧
    capture_region_by_keys scrW scrH
        ((capture_region_by_keys scrW scrH tr bl).left
            + (capture_region_by_keys scrW scrH tr bl).width,
          (capture_region_by_keys scrW scrH tr bl).top)
        ((capture_region_by_keys scrW scrH tr bl).left,
          (capture_region_by_keys scrW scrH tr bl).top
            + (capture_region_by_keys scrW scrH tr bl).height)
      = capture_region_by_keys scrW scrH tr bl := by
  obtain ⟨a, b⟩ := tr
  obtain ⟨c, d⟩ := bl
  simp only [capture_region_by_keys, guiRegion, Region.mk.injEq]
  refine ⟨⟨?_, ?_, ?_, ?_⟩, ⟨?_, ?_, ?_, ?_⟩, ?_, ?_, ?_, ?_, ?_, ?_,
    ?_, ?_, ?_, ?_⟩ <;> omega

/-- C4 witness: order independence and the in-bounds invariants at a
concrete screen and corner pair. -/
theorem C4_witness :
    (1 : Int) ≤ 1920 ∧ (1 : Int) ≤ 1080 ∧
    capture_region_by_keys 1920 1080 (1800, 100) (200, 900)
        = capture_region_by_keys 1920 1080 (200, 900) (1800, 100) ∧
    1 ≤ (capture_region_by_keys 1920 1080 (1800, 100) (200, 900)).width :=
  ⟨by decide, by decide,
    (C4_region_normalization 1920 1080 (1800, 100) (200, 900)
      (by decide) (by decide)).1,
    (C4_region_normalization 1920 1080 (1800, 100) (200, 900)
      (by decide) (by decide)).2.2.1⟩

theorem digitsRevA_one (fuel n : Nat) (hf : 1 ≤ fuel) (hn : n < 10) :
    digitsRevA fuel n = [48 + n] := by
  cases fuel with
  | zero => omega
  | succ f => simp [digitsRevA, hn]

theorem digitsRevA_step (fuel n : Nat) (hf : 1 ≤ fuel) (hn : 10 ≤ n) :
    digitsRevA fuel n = (48 + n % 10) :: digitsRevA (fuel - 1) (n / 10) := by
  cases fuel with
  | zero => omega
  | succ f =>
      have h10 : ¬n < 10 := by omega
      simp [digitsRevA, h10]

/-- For `i ≤ 9999`, `%04d` yields exactly the four decimal digits. -/
theorem format04_eq (i : Nat) (h2 : i ≤ 9999) :
    format04 i = [48 + i / 1000, 48 + i / 100 % 10, 48 + i / 10 % 10,
      48 + i % 10] := by
  rcases Nat.lt_or_ge i 10 with h | h
  · have hd : digitsRevA (i + 1) i = [48 + i] :=
      digitsRevA_one (i + 1) i (by omega) h
    unfold format04 natDigits
    rw [hd]
    simp only [List.reverse_cons, List.reverse_nil, List.nil_append,
      List.length_cons, List.length_nil, List.replicate, List.cons_append,
      List.nil_append, List.cons.injEq, and_true]
    omega
  · rcases Nat.lt_or_ge i 100 with h' | h'
    · have hd : digitsRevA (i + 1) i
          = (48 + i % 10) :: digitsRevA i (i / 10) :=
        digitsRevA_step (i + 1) i (by omega) h
      have hd2 : digitsRevA i (i / 10) = [48 + i / 10] :=
        digitsRevA_one i (i / 10) (by omega) (by omega)
      unfold format04 natDigits
      rw [hd, hd2]
      simp only [List.reverse_cons, List.reverse_nil, List.nil_append,
        List.append_assoc, List.singleton_append, List.length_cons,
        List.length_nil, List.replicate, List.cons_append, List.nil_append,
        List.cons.injEq, and_true]
      omega
    · rcases Nat.lt_or_ge i 1000 with h'' | h''
      · have hd : digitsRevA (i + 1) i
            = (48 + i % 10) :: digitsRevA i (i / 10) :=
          digitsRevA_step (i + 1) i (by omega) h
        have hd2 : digitsRevA i (i / 10)
            = (48 + i / 10 % 10) :: digitsRevA (i - 1) (i / 10 / 10) :=
          digitsRevA_step i (i / 10) (by omega) (by omega)
        have e1 : i / 10 / 10 = i / 100 := by omega
        have hd3 : digitsRevA (i - 1) (i / 100) = [48 + i / 100] :=
          digitsRevA_one (i - 1) (i / 100) (by omega) (by omega)
        unfold format04 natDigits
        rw [hd, hd2, e1, hd3]
        simp only [List.reverse_cons, List.reverse_nil, List.nil_append,
          List.append_assoc, List.singleton_append, List.length_cons,
          List.length_nil, List.replicate, List.cons_append,
          List.nil_append, List.cons.injEq, and_true]
        omega
      · have hd : digitsRevA (i + 1) i
            = (48 + i % 10) :: digitsRevA i (i / 10) :=
          digitsRevA_step (i + 1) i (by omega) h
        have hd2 : digitsRevA i (i / 10)
            = (48 + i / 10 % 10) :: digitsRevA (i - 1) (i / 10 / 10) :=
          digitsRevA_step i (i / 10) (by omega) (by omega)
        have e1 : i / 10 / 10 = i / 100 := by omega
        have hd3 : digitsRevA (i - 1) (i / 100)
            = (48 + i / 100 % 10) :: digitsRevA (i - 2) (i / 100 / 10) :=
          digitsRevA_step (i - 1) (i / 100) (by omega) (by omega)
        have e2 : i / 100 / 10 = i / 1000 := by omega
        have hd4 : digitsRevA (i - 2) (i / 1000) = [48 + i / 1000] :=
          digitsRevA_one (i - 2) (i / 1000) (by omega) (by omega)
        unfold format04 natDigits
        rw [hd, hd2, e1, hd3, e2, hd4]
        simp only [List.reverse_cons, List.reverse_nil, List.nil_append,
          List.append_assoc, List.singleton_append, List.length_cons,
          List.length_nil, List.replicate, List.cons_append,
          List.nil_append, List.cons.injEq, and_true, Nat.sub_self]

theorem lexLtB_self : ∀ s : List Nat, lexLtB s s = false
  | [] => rfl
  | a :: as => by simp [lexLtB, lexLtB_self as]

theorem lexLtB_prefix_congr (x y : List Nat) :
    ∀ p : List Nat, lexLtB (p ++ x) (p ++ y) = lexLtB x y := by
  intro p
  induction p with
  | nil => rfl
  | cons a p ih =>
      simp only [List.cons_append, lexLtB, List.append_eq]
      rw [if_neg (Nat.lt_irrefl a), if_neg (Nat.lt_irrefl a)]
      exact ih

theorem lexLtB_append_congr :
    ∀ (x y s : List Nat), x.length = y.length →
      lexLtB (x ++ s) (y ++ s) = lexLtB x y
  | [], [], s, _ => by simp [lexLtB_self, lexLtB]
  | [], _ :: _, _, h => by simp at h
  | _ :: _, [], _, h => by simp at h
  | a :: as, b :: bs, s, h => by
      simp only [List.cons_append, lexLtB, List.append_eq]
      rw [lexLtB_append_congr as bs s (by simpa using h)]

theorem lexLtB_d4 (a3 a2 a1 a0 b3 b2 b1 b0 : Nat) :
    (lexLtB [a3, a2, a1, a0] [b3, b2, b1, b0] = true ↔
      (a3 < b3 ∨ (a3 = b3 ∧ (a2 < b2 ∨ (a2 = b2 ∧
        (a1 < b1 ∨ (a1 = b1 ∧ a0 < b0))))))) := by
  simp only [lexLtB]
  split_ifs <;> simp_all <;> omega

/-- C8: frame filenames `page_%04d.png` sort lexicographically exactly in
capture order for page indices 1..9999. -/
theorem C8_filename_order (i j : Nat) (hi1 : 1 ≤ i) (hi2 : i ≤ 9999)
    (hj1 : 1 ≤ j) (hj2 : j ≤ 9999) :
    (lexLtB (pageFilename i) (pageFilename j) = true ↔ i < j) := by
  unfold pageFilename
  rw [format04_eq i hi2, format04_eq j hj2, List.append_assoc,
    List.append_assoc, lexLtB_prefix_congr,
    lexLtB_append_congr _ _ _ (by simp), lexLtB_d4]
  omega

/-- C8 witness: `page_0003.png` sorts before `page_0005.png`. -/
theorem C8_witness :
    1 ≤ 3 ∧ 3 ≤ 9999 ∧ 1 ≤ 5 ∧ 5 ≤ 9999 ∧
    (lexLtB (pageFilename 3) (pageFilename 5) = true ↔ 3 < 5) :=
  ⟨by decide, by decide, by decide, by decide,
    C8_filename_order 3 5 (by decide) (by decide) (by decide) (by decide)⟩

theorem lexLeB_total : ∀ x y : List Nat, lexLeB x y = true ∨ lexLeB y x = true
  | [], _ => Or.inl rfl
  | _ :: _, [] => Or.inr rfl
  | a :: as, b :: bs => by
      by_cases h1 : a < b
      · left; simp [lexLeB, h1]
      · by_cases h2 : b < a
        · right; simp [lexLeB, h2, h1]
        · rcases lexLeB_total as bs with h | h
          · left; simp [lexLeB, h1, h2, h]
          · right; simp [lexLeB, h1, h2, h]

theorem lexLeB_trans : ∀ x y z : List Nat,
    lexLeB x y = true → lexLeB y z = true → lexLeB x z = true
  | [], _, _ => fun _ _ => rfl
  | _ :: _, [], _ => fun h _ => by simp [lexLeB] at h
  | _ :: _, _ :: _, [] => fun _ h => by simp [lexLeB] at h
  | a :: as, b :: bs, c :: cs => by
      simp only [lexLeB]
      intro h1 h2
      split_ifs at h1 h2 ⊢ <;>
        first
          | rfl
          | omega
          | (exact lexLeB_trans as bs cs h1 h2)
          | simp_all

theorem keyLeB_total (x y : Nat × Nat × List Nat) :
    keyLeB x y = true ∨ keyLeB y x = true := by
  unfold keyLeB
  split_ifs <;>
    first
      | (left; rfl)
      | (right; rfl)
      | omega
      | exact lexLeB_total x.2.2 y.2.2

theorem keyLeB_trans (x y z : Nat × Nat × List Nat) :
    keyLeB x y = true → keyLeB y z = true → keyLeB x z = true := by
  unfold keyLeB
  intro h1 h2
  split_ifs at h1 h2 ⊢ <;>
    first
      | rfl
      | omega
      | (exact lexLeB_trans x.2.2 y.2.2 z.2.2 h1 h2)
      | simp_all

theorem fileLe_isTotal (sm : SortMode) (rev : Bool) :
    IsTotal ImgFile (fileLe sm rev) := by
  constructor
  intro a b
  unfold fileLe
  cases rev
  · simpa using keyLeB_total (sortKey sm a) (sortKey sm b)
  · simpa using keyLeB_total (sortKey sm b) (sortKey sm a)

theorem fileLe_isTrans (sm : SortMode) (rev : Bool) :
    IsTrans ImgFile (fileLe sm rev) := by
  constructor
  intro a b c h1 h2
  unfold fileLe at h1 h2 ⊢
  cases rev
  · simpa using keyLeB_trans _ _ _ (by simpa using h1) (by simpa using h2)
  · simpa using keyLeB_trans _ _ _ (by simpa using h2) (by simpa using h1)

theorem pairwise_imp_mem {α : Type} {R S : α → α → Prop} :
    ∀ {l : List α}, (∀ a ∈ l, ∀ b ∈ l, R a b → S a b) →
      l.Pairwise R → l.Pairwise S := by
  intro l
  induction l with
  | nil => intro _ _; exact List.Pairwise.nil
  | cons x xs ih =>
      intro h hp
      rcases List.pairwise_cons.mp hp with ⟨hx, hxs⟩
      refine List.pairwise_cons.mpr ⟨?_, ?_⟩
      · intro b hb
        exact h x (by simp) b (by simp [hb]) (hx b hb)
      · exact ih (fun a ha b hb hr => h a (by simp [ha]) b (by simp [hb]) hr)
          hxs

/-- C5 counterexample: two files with identical primary (birth) timestamps
but different modification times are ordered by mtime, not by filename:
`a.png` (birth 100, mtime 200) and `b.png` (birth 100, mtime 150) come out
as [b, a] although ascending lowercased-filename order is [a, b] — the sort
key at screenshots_to_pdf.py line 69 is `(*get_times(x), basename.lower())`
and `get_times` returns `(birth, mtime)`, so mtime tie-breaks before the
filename does. -/
theorem C5_counterexample :
    (get_times ⟨[97, 46, 112, 110, 103], some 100, 200⟩).1
        = (get_times ⟨[98, 46, 112, 110, 103], some 100, 150⟩).1 ∧
    lexLeB (lowerName ⟨[97, 46, 112, 110, 103], some 100, 200⟩)
        (lowerName ⟨[98, 46, 112, 110, 103], some 100, 150⟩) = true ∧
    sortedFiles .ctime false
        [⟨[97, 46, 112, 110, 103], some 100, 200⟩,
         ⟨[98, 46, 112, 110, 103], some 100, 150⟩]
      = [⟨[98, 46, 112, 110, 103], some 100, 150⟩,
         ⟨[97, 46, 112, 110, 103], some 100, 200⟩] ∧
    ¬(sortedFiles .ctime false
        [⟨[97, 46, 112, 110, 103], some 100, 200⟩,
         ⟨[98, 46, 112, 110, 103], some 100, 150⟩]
      = [⟨[97, 46, 112, 110, 103], some 100, 200⟩,
         ⟨[98, 46, 112, 110, 103], some 100, 150⟩]) := by
  decide

/-- C5 amended: for files whose primary *and* secondary (mtime) timestamps
are all identical, the default-`ctime` ordering is ascending lowercased
filename order (descending under `--reverse`), the output is a permutation
of the input, and re-sorting the sorted output returns it unchanged. -/
theorem C5_stable_order (fs : List ImgFile) (P M : Nat)
    (htimes : ∀ f ∈ fs, get_times f = (P, M)) :
    (sortedFiles .ctime false fs).Perm fs ∧
    (sortedFiles .ctime true fs).Perm fs ∧
    List.Pairwise (fun a b => lexLeB (lowerName a) (lowerName b) = true)
      (sortedFiles .ctime false fs) ∧
    List.Pairwise (fun a b => lexLeB (lowerName b) (lowerName a) = true)
      (sortedFiles .ctime true fs) ∧
    sortedFiles .ctime false (sortedFiles .ctime false fs)
      = sortedFiles .ctime false fs := by
  haveI := fileLe_isTotal .ctime false
  haveI := fileLe_isTrans .ctime false
  haveI := fileLe_isTotal .ctime true
  haveI := fileLe_isTrans .ctime true
  have key_red : ∀ a ∈ fs, ∀ b ∈ fs,
      keyLeB (sortKey .ctime a) (sortKey .ctime b) = true →
        lexLeB (lowerName a) (lowerName b) = true := by
    intro a ha b hb hk
    have ea := htimes a ha
    have eb := htimes b hb
    simp only [sortKey, keyLeB, ea, eb, lt_irrefl, if_false] at hk
    exact hk
  refine ⟨List.perm_insertionSort _ fs, List.perm_insertionSort _ fs,
    ?_, ?_, ?_⟩
  · have hs := List.sorted_insertionSort (fileLe .ctime false) fs
    refine pairwise_imp_mem (fun a ha b hb hr => ?_) hs
    have ha' : a ∈ fs := (List.mem_insertionSort _).mp ha
    have hb' : b ∈ fs := (List.mem_insertionSort _).mp hb
    exact key_red a ha' b hb' (by simpa [fileLe] using hr)
  · have hs := List.sorted_insertionSort (fileLe .ctime true) fs
    refine pairwise_imp_mem (fun a ha b hb hr => ?_) hs
    have ha' : a ∈ fs := (List.mem_insertionSort _).mp ha
    have hb' : b ∈ fs := (List.mem_insertionSort _).mp hb
    exact key_red b hb' a ha' (by simpa [fileLe] using hr)
  · exact List.Sorted.insertionSort_eq
      (List.sorted_insertionSort (fileLe .ctime false) fs)

/-- C5 witness: two equal-timestamp files come out in ascending filename
order, in descending order under reverse, and re-sorting is stable. -/
theorem C5_witness :
    (∀ f ∈ [(⟨[98, 46, 112, 110, 103], some 100, 100⟩ : ImgFile),
            ⟨[97, 46, 112, 110, 103], some 100, 100⟩],
        get_times f = (100, 100)) ∧
    List.Pairwise (fun a b => lexLeB (lowerName a) (lowerName b) = true)
      (sortedFiles .ctime false
        [⟨[98, 46, 112, 110, 103], some 100, 100⟩,
         ⟨[97, 46, 112, 110, 103], some 100, 100⟩]) ∧
    sortedFiles .ctime false
        (sortedFiles .ctime false
          [⟨[98, 46, 112, 110, 103], some 100, 100⟩,
           ⟨[97, 46, 112, 110, 103], some 100, 100⟩])
      = sortedFiles .ctime false
          [⟨[98, 46, 112, 110, 103], some 100, 100⟩,
           ⟨[97, 46, 112, 110, 103], some 100, 100⟩] :=
  ⟨by decide,
    (C5_stable_order
      [⟨[98, 46, 112, 110, 103], some 100, 100⟩,
       ⟨[97, 46, 112, 110, 103], some 100, 100⟩] 100 100 (by decide)).2.2.1,
    (C5_stable_order
      [⟨[98, 46, 112, 110, 103], some 100, 100⟩,
       ⟨[97, 46, 112, 110, 103], some 100, 100⟩] 100 100
        (by decide)).2.2.2.2⟩

/-- C6: the assembler CLI exits 1 without writing a PDF when the folder is
not a directory or when zero image files match, and on success exits 0
after resolving (printing) the ordering and writing the PDF. -/
theorem C6_cli_exits (isDir : Bool) (globbed : List ImgFile) (sm : SortMode)
    (rev : Bool) (folder outName : List Nat) :
    (isDir = false →
       assemblerMain isDir globbed sm rev folder outName
         = ⟨1, false, none, none⟩) ∧
    (isDir = true →
      (globbed.filter (fun f => is_image f.path)).isEmpty = true →
       assemblerMain isDir globbed sm rev folder outName
         = ⟨1, false, none, none⟩) ∧
    (isDir = true →
      (globbed.filter (fun f => is_image f.path)).isEmpty = false →
       (assemblerMain isDir globbed sm rev folder outName).exitCode = 0 ∧
       (assemblerMain isDir globbed sm rev folder outName).wrotePdf = true ∧
       (assemblerMain isDir globbed sm rev folder outName).printedOrder
         = some (sortedFiles sm rev
             (globbed.filter (fun f => is_image f.path)))) := by
  refine ⟨?_, ?_, ?_⟩
  · intro h; subst h; rfl
  · intro h he; subst h
    simp [assemblerMain, he]
  · intro h he; subst h
    simp [assemblerMain, he]

/-- C6 witness: a non-directory input, an empty directory, and a successful
run, all at concrete inputs. -/
theorem C6_witness :
    assemblerMain false [] .ctime false [47, 100] [111, 46, 112, 100, 102]
      = ⟨1, false, none, none⟩ ∧
    assemblerMain true [] .ctime false [47, 100] [111, 46, 112, 100, 102]
      = ⟨1, false, none, none⟩ ∧
    (assemblerMain true [⟨[97, 46, 112, 110, 103], some 1, 1⟩] .ctime false
        [47, 100] [111, 46, 112, 100, 102]).exitCode = 0 ∧
    (assemblerMain true [⟨[97, 46, 112, 110, 103], some 1, 1⟩] .ctime false
        [47, 100] [111, 46, 112, 100, 102]).wrotePdf = true :=
  ⟨(C6_cli_exits false [] .ctime false [47, 100]
      [111, 46, 112, 100, 102]).1 rfl,
   (C6_cli_exits true [] .ctime false [47, 100]
      [111, 46, 112, 100, 102]).2.1 rfl (by decide),
   ((C6_cli_exits true [⟨[97, 46, 112, 110, 103], some 1, 1⟩] .ctime false
      [47, 100] [111, 46, 112, 100, 102]).2.2 rfl (by decide)).1,
   ((C6_cli_exits true [⟨[97, 46, 112, 110, 103], some 1, 1⟩] .ctime false
      [47, 100] [111, 46, 112, 100, 102]).2.2 rfl (by decide)).2.1⟩

/-- C10: the assembler writes the PDF to `os.path.join(folder, args.out)`
(screenshots_to_pdf.py line 79), so a relative `--out` name lands inside
the scanned folder (the default `book.pdf` included) and an absolute
`--out` path is used as given. -/
theorem C10_out_inside_folder (isDir : Bool) (globbed : List ImgFile)
    (sm : SortMode) (rev : Bool) (folder outName : List Nat)
    (hdir : isDir = true)
    (hsome : (globbed.filter (fun f => is_image f.path)).isEmpty = false) :
    (assemblerMain isDir globbed sm rev folder outName).outPath
        = some (joinPath folder outName) ∧
    (outName.head? ≠ some 47 → folder ≠ [] → folder.getLast? ≠ some 47 →
        joinPath folder outName = folder ++ 47 :: outName) ∧
    (outName.head? = some 47 → joinPath folder outName = outName) := by
  subst hdir
  refine ⟨?_, ?_, ?_⟩
  · simp [assemblerMain, hsome]
  · intro h1 h2 h3
    simp [joinPath, h1, h2, h3]
  · intro h1
    simp [joinPath, h1]

/-- C10 witness: with folder `/d` and the default out name `book.pdf`, the
PDF path is `/d/book.pdf`; an absolute out name `/x.pdf` is kept as is. -/
theorem C10_witness :
    (assemblerMain true [⟨[97, 46, 112, 110, 103], some 1, 1⟩] .ctime false
        [47, 100] [98, 111, 111, 107, 46, 112, 100, 102]).outPath
      = some (joinPath [47, 100] [98, 111, 111, 107, 46, 112, 100, 102]) ∧
    joinPath [47, 100] [98, 111, 111, 107, 46, 112, 100, 102]
      = [47, 100] ++ 47 :: [98, 111, 111, 107, 46, 112, 100, 102] ∧
    joinPath [47, 100] [47, 120, 46, 112, 100, 102]
      = [47, 120, 46, 112, 100, 102] :=
  ⟨(C10_out_inside_folder true [⟨[97, 46, 112, 110, 103], some 1, 1⟩] .ctime
      false [47, 100] [98, 111, 111, 107, 46, 112, 100, 102] rfl
      (by decide)).1,
   (C10_out_inside_folder true [⟨[97, 46, 112, 110, 103], some 1, 1⟩] .ctime
      false [47, 100] [98, 111, 111, 107, 46, 112, 100, 102] rfl
      (by decide)).2.1 (by decide) (by decide) (by decide),
   (C10_out_inside_folder true [⟨[97, 46, 112, 110, 103], some 1, 1⟩] .ctime
      false [47, 100] [47, 120, 46, 112, 100, 102] rfl
      (by decide)).2.2 (by decide)⟩

end BookCap
